import Mathlib

/-!
Verification of the kalshi_scan detection engine.

A shallow embedding of the core of the `kalshi_scan` market scanner:
the spike-detection algorithms (`kalshi/detector.py`), the history store's
pruning operation (`kalshi/database.py`), the scanner loop's error-recovery
policy (`kalshi/scanner.py`), the token cache (`kalshi/auth.py`), and the
API-record parsing of `kalshi/collector.py`.

Modelling conventions:
* Timestamps are integers (seconds since an arbitrary epoch); `datetime.utcnow()`
  becomes an explicit `now : ℤ` parameter, and `timedelta(minutes=w)` becomes
  `60 * w` seconds.
* Python numbers are embedded as exact rationals `ℚ` (integers as `ℤ`); all
  arithmetic the source performs on them (sums, differences, divisions,
  comparisons) is carried out exactly.  The only irrational quantity in the
  source, `statistics.stdev` (the square root of the Bessel-corrected sample
  variance), is represented by the rational `sampleVariance` together with the
  square-root-free comparison `zScoreGE`, proved below (`zScoreGE_eq_true_iff`)
  to coincide with the source's comparison `(x / sqrt v) ≥ t` on the reals.
* `Optional` fields become `Option`, absent data is `none`.
-/

namespace Kalshi

/-- Embeds `database.MarketSnapshot`: a point-in-time snapshot of market data. -/
structure MarketSnapshot where
  ticker : String
  timestamp : ℤ
  volume : ℤ
  last_price : Option ℚ
  yes_bid : Option ℚ
  yes_ask : Option ℚ
  open_interest : ℤ
  title : String
  subtitle : String
deriving DecidableEq

/-- Embeds `collector.Market`: the current state of a market as fetched from the API. -/
structure Market where
  ticker : String
  title : String
  subtitle : String
  status : String
  volume : ℤ
  open_interest : ℤ
  last_price : Option ℚ
  yes_bid : Option ℚ
  yes_ask : Option ℚ
  url : String
deriving DecidableEq

/-- The detection-relevant part of `config.Config`. -/
structure Config where
  volume_std_threshold : ℚ
  price_spike_threshold : ℚ
  price_spike_window_minutes : ℤ
  spread_compression_threshold : ℚ
deriving DecidableEq

/-- Embeds `detector.SpikeType`. -/
inductive SpikeType where
  | volume
  | price
  | spread_compression
deriving DecidableEq

/-- The `extra_info` dict of a `detector.SpikeEvent`, as a kind-specific record.
For a volume event the source stores `z_score = z_num / stdev` and
`std_rate = stdev` where `stdev = sqrt std_sq`; we store the exact rational
data `z_num` (current rate minus mean) and `std_sq` (the sample variance)
that determine them. -/
inductive ExtraInfo where
  | volumeInfo (z_num : ℚ) (std_sq : ℚ)
  | priceInfo (window_minutes : ℤ) (direction : String)
  | spreadInfo (yes_bid : ℚ) (yes_ask : ℚ) (compression : ℚ)
deriving DecidableEq

/-- Embeds `detector.SpikeEvent`. -/
structure SpikeEvent where
  spike_type : SpikeType
  ticker : String
  title : String
  subtitle : String
  timestamp : ℤ
  current_value : ℚ
  previous_value : ℚ
  average_value : ℚ
  threshold : ℚ
  url : String
  extra_info : ExtraInfo
deriving DecidableEq

/-- Embeds `statistics.mean` on exact rationals. -/
def mean (l : List ℚ) : ℚ := l.sum / (l.length : ℚ)

/-- The Bessel-corrected sample variance (divide by `n - 1`); the source's
`statistics.stdev l` is `Real.sqrt (sampleVariance l)`. -/
def sampleVariance (l : List ℚ) : ℚ :=
  ((l.map fun x => (x - mean l) ^ 2).sum) / ((l.length : ℚ) - 1)

/-- Square-root-free rendering of the source's comparison
`x / sqrt v ≥ t` (for `v > 0`); see `zScoreGE_eq_true_iff`. -/
def zScoreGE (x v t : ℚ) : Bool :=
  if 0 ≤ t then decide (0 ≤ x) && decide (t ^ 2 * v ≤ x ^ 2)
  else decide (0 ≤ x) || decide (x ^ 2 ≤ t ^ 2 * v)

/-- The predicate `zScoreGE x v t` is exactly the real comparison `t ≤ x / sqrt v` when `v > 0`. -/
theorem zScoreGE_eq_true_iff (x v t : ℚ) (hv : 0 < v) :
    zScoreGE x v t = true ↔ (t : ℝ) ≤ (x : ℝ) / Real.sqrt (v : ℝ) := by
  have hv' : (0 : ℝ) < (v : ℝ) := by exact_mod_cast hv
  have hs : 0 < Real.sqrt (v : ℝ) := Real.sqrt_pos.mpr hv'
  have hs2 : Real.sqrt (v : ℝ) ^ 2 = (v : ℝ) := Real.sq_sqrt hv'.le
  rw [le_div_iff₀ hs]
  unfold zScoreGE
  split
  · rename_i ht
    have ht' : (0 : ℝ) ≤ (t : ℝ) := by exact_mod_cast ht
    have hts : 0 ≤ (t : ℝ) * Real.sqrt (v : ℝ) := mul_nonneg ht' hs.le
    simp only [Bool.and_eq_true, decide_eq_true_eq]
    constructor
    · rintro ⟨hx, hsq⟩
      have hx' : (0 : ℝ) ≤ (x : ℝ) := by exact_mod_cast hx
      have hsq' : ((t : ℝ) * Real.sqrt (v : ℝ)) ^ 2 ≤ (x : ℝ) ^ 2 := by
        rw [mul_pow, hs2]
        exact_mod_cast hsq
      exact (pow_le_pow_iff_left₀ hts hx' two_ne_zero).mp hsq'
    · intro hle
      have hx' : (0 : ℝ) ≤ (x : ℝ) := le_trans hts hle
      refine ⟨by exact_mod_cast hx', ?_⟩
      have hsq' : ((t : ℝ) * Real.sqrt (v : ℝ)) ^ 2 ≤ (x : ℝ) ^ 2 :=
        (pow_le_pow_iff_left₀ hts hx' two_ne_zero).mpr hle
      rw [mul_pow, hs2] at hsq'
      exact_mod_cast hsq'
  · rename_i ht
    have ht' : (t : ℝ) < 0 := by
      have := lt_of_not_le ht
      exact_mod_cast this
    have hts : (t : ℝ) * Real.sqrt (v : ℝ) < 0 := mul_neg_of_neg_of_pos ht' hs
    simp only [Bool.or_eq_true, decide_eq_true_eq]
    constructor
    · rintro (hx | hsq)
      · have hx' : (0 : ℝ) ≤ (x : ℝ) := by exact_mod_cast hx
        exact le_trans hts.le hx'
      · have hsq' : (x : ℝ) ^ 2 ≤ ((t : ℝ) * Real.sqrt (v : ℝ)) ^ 2 := by
          rw [mul_pow, hs2]
          exact_mod_cast hsq
        by_cases hx : (0 : ℝ) ≤ (x : ℝ)
        · exact le_trans hts.le hx
        · push_neg at hx
          have h1 : (-(x : ℝ)) ^ 2 ≤ (-((t : ℝ) * Real.sqrt (v : ℝ))) ^ 2 := by
            simpa using hsq'
          have h2 := (pow_le_pow_iff_left₀ (neg_nonneg.mpr hx.le)
            (neg_nonneg.mpr hts.le) two_ne_zero).mp h1
          linarith
    · intro hle
      by_cases hx : (0 : ℚ) ≤ x
      · exact Or.inl hx
      · push_neg at hx
        have hx' : (x : ℝ) < 0 := by exact_mod_cast hx
        refine Or.inr ?_
        have h1 : (-(x : ℝ)) ≤ -((t : ℝ) * Real.sqrt (v : ℝ)) := by linarith
        have h2 : (-(x : ℝ)) ^ 2 ≤ (-((t : ℝ) * Real.sqrt (v : ℝ))) ^ 2 :=
          (pow_le_pow_iff_left₀ (neg_nonneg.mpr hx'.le)
            (neg_nonneg.mpr hts.le) two_ne_zero).mpr h1
        have h3 : (x : ℝ) ^ 2 ≤ ((t : ℝ) * Real.sqrt (v : ℝ)) ^ 2 := by
          simpa using h2
        rw [mul_pow, hs2] at h3
        exact_mod_cast h3

/-- The adjacent-pair volume deltas of `_detect_volume_spike`
(`history[i].volume - history[i+1].volume` over the stored history,
newest-first), keeping only the nonnegative ones (`rate >= 0`). -/
def ratesOfChange (history : List MarketSnapshot) : List ℚ :=
  (List.zipWith (fun newer older => ((newer.volume : ℚ) - (older.volume : ℚ)))
    history history.tail).filter fun r => decide (0 ≤ r)

/-- Embeds `SpikeDetector._detect_volume_spike`.  `now` is the value of
`datetime.utcnow()` stamped on a fired event. -/
def detect_volume_spike (cfg : Config) (now : ℤ) (market : Market)
    (history : List MarketSnapshot) : Option SpikeEvent :=
  if history.length < 3 then none else
  match history with
  | [] => none
  | h0 :: _ =>
    let rates := ratesOfChange history
    if rates.length < 2 then none else
    let current_rate : ℚ := (market.volume : ℚ) - (h0.volume : ℚ)
    if current_rate ≤ 0 then none else
    let mean_rate := mean rates
    let var_rate := sampleVariance rates
    if 0 < var_rate then
      if zScoreGE (current_rate - mean_rate) var_rate cfg.volume_std_threshold then
        some
          { spike_type := SpikeType.volume
            ticker := market.ticker
            title := market.title
            subtitle := market.subtitle
            timestamp := now
            current_value := (market.volume : ℚ)
            previous_value := (h0.volume : ℚ)
            average_value := mean_rate
            threshold := cfg.volume_std_threshold
            url := market.url
            extra_info := ExtraInfo.volumeInfo (current_rate - mean_rate) var_rate }
      else none
    else none

/-- The reference-snapshot scan of `_detect_price_spike`: the first history
entry (scanning in list order) whose timestamp is at or before `cutoff`,
falling back to the last entry scanned when none qualifies. -/
def referenceSnapshot (cutoff : ℤ) : List MarketSnapshot → Option MarketSnapshot
  | [] => none
  | s :: rest =>
    if s.timestamp ≤ cutoff then some s
    else
      match rest with
      | [] => some s
      | _ :: _ => referenceSnapshot cutoff rest

/-- Embeds `SpikeDetector._detect_price_spike`. -/
def detect_price_spike (cfg : Config) (now : ℤ) (market : Market)
    (history : List MarketSnapshot) : Option SpikeEvent :=
  match market.last_price with
  | none => none
  | some lp =>
    let cutoff : ℤ := now - 60 * cfg.price_spike_window_minutes
    match referenceSnapshot cutoff history with
    | none => none
    | some ref =>
      match ref.last_price with
      | none => none
      | some rp =>
        let current_price := lp / 100
        let reference_price := rp / 100
        if cfg.price_spike_threshold ≤ |current_price - reference_price| then
          some
            { spike_type := SpikeType.price
              ticker := market.ticker
              title := market.title
              subtitle := market.subtitle
              timestamp := now
              current_value := current_price
              previous_value := reference_price
              average_value := reference_price
              threshold := cfg.price_spike_threshold
              url := market.url
              extra_info := ExtraInfo.priceInfo cfg.price_spike_window_minutes
                (if reference_price < current_price then "up" else "down") }
        else none

/-- The qualifying historical spreads of `_detect_spread_compression`:
`(yes_ask - yes_bid) / 100` over the history entries with both quotes
present and a strictly positive spread, in history order. -/
def historicalSpreads (history : List MarketSnapshot) : List ℚ :=
  history.filterMap fun s =>
    match s.yes_bid, s.yes_ask with
    | some b, some a =>
      let sp := (a - b) / 100
      if 0 < sp then some sp else none
    | _, _ => none

/-- Embeds `SpikeDetector._detect_spread_compression`. -/
def detect_spread_compression (cfg : Config) (now : ℤ) (market : Market)
    (history : List MarketSnapshot) : Option SpikeEvent :=
  match market.yes_bid, market.yes_ask with
  | some b, some a =>
    let current_spread := (a - b) / 100
    if current_spread ≤ 0 then none else
    let spreads := historicalSpreads history
    if spreads.length < 3 then none else
    let avg_spread := mean spreads
    let compression := current_spread / avg_spread
    if compression ≤ 1 - cfg.spread_compression_threshold then
      some
        { spike_type := SpikeType.spread_compression
          ticker := market.ticker
          title := market.title
          subtitle := market.subtitle
          timestamp := now
          current_value := current_spread
          previous_value := spreads.headI
          average_value := avg_spread
          threshold := cfg.spread_compression_threshold
          url := market.url
          extra_info := ExtraInfo.spreadInfo (b / 100) (a / 100) compression }
    else none
  | _, _ => none

/-- Embeds `SpikeDetector.detect_spikes`: re-sorts the history newest-first (a stable
sort on the timestamp key, as Python's `sorted(..., reverse=True)`) and runs
the three checks. -/
def detect_spikes (cfg : Config) (now : ℤ) (market : Market)
    (history : List MarketSnapshot) : List SpikeEvent :=
  if history.length < 2 then [] else
  let sortedHistory := history.mergeSort fun a b => decide (b.timestamp ≤ a.timestamp)
  (detect_volume_spike cfg now market sortedHistory).toList ++
    (detect_price_spike cfg now market sortedHistory).toList ++
      (detect_spread_compression cfg now market sortedHistory).toList

/-- The volume of the most recent stored snapshot (`history[0].volume`),
defaulting to `0` on an empty history. -/
def headVolume : List MarketSnapshot → ℚ
  | [] => 0
  | h :: _ => (h.volume : ℚ)

theorem sampleVariance_nonneg (l : List ℚ) : 0 ≤ sampleVariance l := by
  cases l with
  | nil => simp [sampleVariance]
  | cons x xs =>
    apply div_nonneg
    · exact List.sum_nonneg fun a ha => by
        obtain ⟨b, _, rfl⟩ := List.mem_map.mp ha
        positivity
    · have : (1 : ℚ) ≤ ((x :: xs).length : ℚ) := by
        exact_mod_cast Nat.succ_le_of_lt (List.length_pos.mpr (by simp))
      linarith

theorem sampleVariance_of_constant (l : List ℚ) (c : ℚ) (h : ∀ r ∈ l, r = c) :
    sampleVariance l = 0 := by
  cases l with
  | nil => simp [sampleVariance]
  | cons x xs =>
    have hlen : ((x :: xs).length : ℚ) ≠ 0 :=
      Nat.cast_ne_zero.mpr (Nat.succ_ne_zero xs.length)
    have hsum : (x :: xs).sum = ((x :: xs).length : ℚ) * c := by
      rw [List.sum_eq_card_nsmul (x :: xs) c h, nsmul_eq_mul]
    have hmean : mean (x :: xs) = c := by
      rw [mean, hsum]
      field_simp
    have hzero : ((x :: xs).map fun y => (y - mean (x :: xs)) ^ 2).sum = 0 := by
      apply List.sum_eq_zero
      intro a ha
      obtain ⟨b, hb, rfl⟩ := List.mem_map.mp ha
      rw [hmean, h b hb, sub_self]
      ring
    rw [sampleVariance, hzero, zero_div]

theorem detect_volume_spike_isSome_iff (cfg : Config) (now : ℤ) (market : Market)
    (history : List MarketSnapshot) :
    (detect_volume_spike cfg now market history).isSome ↔
      3 ≤ history.length ∧ 2 ≤ (ratesOfChange history).length ∧
      0 < (market.volume : ℚ) - headVolume history ∧
      0 < sampleVariance (ratesOfChange history) ∧
      zScoreGE ((market.volume : ℚ) - headVolume history - mean (ratesOfChange history))
        (sampleVariance (ratesOfChange history)) cfg.volume_std_threshold = true := by
  cases history with
  | nil => simp [detect_volume_spike]
  | cons h0 tl =>
    show (detect_volume_spike cfg now market (h0 :: tl)).isSome ↔ _
    simp only [headVolume]
    unfold detect_volume_spike
    by_cases h1 : (h0 :: tl).length < 3
    · simp only [if_pos h1, Option.isSome_none, Bool.false_eq_true, false_iff]
      rintro ⟨h3, -⟩; omega
    · simp only [if_neg h1]
      by_cases h2 : (ratesOfChange (h0 :: tl)).length < 2
      · simp only [if_pos h2, Option.isSome_none, Bool.false_eq_true, false_iff]
        rintro ⟨-, h4, -⟩; omega
      · simp only [if_neg h2]
        by_cases h3 : (market.volume : ℚ) - (h0.volume : ℚ) ≤ 0
        · simp only [if_pos h3, Option.isSome_none, Bool.false_eq_true, false_iff]
          rintro ⟨-, -, h5, -⟩; linarith
        · simp only [if_neg h3]
          by_cases h4 : 0 < sampleVariance (ratesOfChange (h0 :: tl))
          · simp only [if_pos h4]
            by_cases h5 : zScoreGE ((market.volume : ℚ) - (h0.volume : ℚ) -
                mean (ratesOfChange (h0 :: tl)))
                (sampleVariance (ratesOfChange (h0 :: tl))) cfg.volume_std_threshold = true
            · simp only [if_pos h5, Option.isSome_some, true_iff]
              exact ⟨by omega, by omega, by linarith, h4, h5⟩
            · simp only [if_neg h5, Option.isSome_none, Bool.false_eq_true, false_iff]
              rintro ⟨-, -, -, -, h6⟩; exact h5 h6
          · simp only [if_neg h4, Option.isSome_none, Bool.false_eq_true, false_iff]
            rintro ⟨-, -, -, h6, -⟩; exact h4 h6

theorem detect_volume_spike_eq_some (cfg : Config) (now : ℤ) (market : Market)
    (history : List MarketSnapshot) :
    ∀ e, detect_volume_spike cfg now market history = some e →
      e.current_value = (market.volume : ℚ) ∧ e.previous_value = headVolume history ∧
      e.average_value = mean (ratesOfChange history) ∧ e.spike_type = SpikeType.volume := by
  intro e h
  simp only [detect_volume_spike] at h
  split at h
  · exact absurd h (by simp)
  · split at h
    · exact absurd h (by simp)
    · split at h
      · exact absurd h (by simp)
      · split at h
        · exact absurd h (by simp)
        · split at h
          · split at h
            · cases h
              simp [headVolume]
            · exact absurd h (by simp)
          · exact absurd h (by simp)

theorem detect_volume_spike_of_flat (cfg : Config) (now : ℤ) (market : Market)
    (history : List MarketSnapshot) (c : ℚ) (h : ∀ r ∈ ratesOfChange history, r = c) :
    detect_volume_spike cfg now market history = none := by
  cases hopt : detect_volume_spike cfg now market history with
  | none => rfl
  | some e =>
    exfalso
    have hsome : (detect_volume_spike cfg now market history).isSome := by
      rw [hopt]; rfl
    have := ((detect_volume_spike_isSome_iff cfg now market history).mp hsome).2.2.2.1
    rw [sampleVariance_of_constant _ c h] at this
    exact lt_irrefl 0 this

/-- Sample data used to instantiate the theorems below on concrete inputs:
a history snapshot carrying only a timestamp and a volume. -/
def sampleSnap (ts vol : ℤ) : MarketSnapshot :=
  ⟨"KXTEST", ts, vol, none, none, none, 0, "Test market", ""⟩

/-- Sample data: a history snapshot carrying a timestamp and quote fields. -/
def sampleSnapQuotes (ts : ℤ) (lp b a : Option ℚ) : MarketSnapshot :=
  ⟨"KXTEST", ts, 0, lp, b, a, 0, "Test market", ""⟩

/-- Sample data: a current market state. -/
def sampleMarket (vol : ℤ) (lp b a : Option ℚ) : Market :=
  ⟨"KXTEST", "Test market", "", "open", vol, 0, lp, b, a,
    "https://kalshi.com/markets/kxtest"⟩

/-- The `config.py` defaults for the four detection thresholds:
2.0 std devs, $0.10, 5 minutes, 50%. -/
def defaultConfig : Config := ⟨2, 1 / 10, 5, 1 / 2⟩

/-- The volume history of spec §8 (newest-first volumes 1000, 950, 920, 850). -/
def volHistory : List MarketSnapshot :=
  [sampleSnap 30 1000, sampleSnap 20 950, sampleSnap 10 920, sampleSnap 0 850]

/-- A history whose successive volume deltas are all equal (50, 50, 50). -/
def flatHistory : List MarketSnapshot :=
  [sampleSnap 30 150, sampleSnap 20 100, sampleSnap 10 50, sampleSnap 0 0]

/-- C1: the volume check fires iff the history holds at least 3 snapshots, at
least 2 nonnegative adjacent deltas survive, the current rate
`market.volume - history[0].volume` is strictly positive, the sample standard
deviation of the surviving deltas is nonzero, and
`z = (current_rate - mean) / stdev` is at least `volume_std_threshold`; a fired
event carries `current_value = market.volume`,
`previous_value = history[0].volume` and `average_value = mean of the deltas`;
and when all surviving deltas are equal no event fires regardless of the
current rate. -/
theorem volume_check_characterization (cfg : Config) (now : ℤ) (market : Market)
    (history : List MarketSnapshot) :
    ((detect_volume_spike cfg now market history).isSome ↔
      3 ≤ history.length ∧ 2 ≤ (ratesOfChange history).length ∧
      0 < (market.volume : ℚ) - headVolume history ∧
      Real.sqrt ((sampleVariance (ratesOfChange history) : ℚ) : ℝ) ≠ 0 ∧
      (cfg.volume_std_threshold : ℝ) ≤
        (((market.volume : ℚ) - headVolume history - mean (ratesOfChange history) : ℚ) : ℝ) /
          Real.sqrt ((sampleVariance (ratesOfChange history) : ℚ) : ℝ)) ∧
    (∀ e, detect_volume_spike cfg now market history = some e →
      e.current_value = (market.volume : ℚ) ∧ e.previous_value = headVolume history ∧
      e.average_value = mean (ratesOfChange history)) ∧
    (∀ c : ℚ, (∀ r ∈ ratesOfChange history, r = c) →
      detect_volume_spike cfg now market history = none) := by
  refine ⟨?_, fun e he => ⟨(detect_volume_spike_eq_some cfg now market history e he).1,
      (detect_volume_spike_eq_some cfg now market history e he).2.1,
      (detect_volume_spike_eq_some cfg now market history e he).2.2.1⟩,
    fun c hc => detect_volume_spike_of_flat cfg now market history c hc⟩
  rw [detect_volume_spike_isSome_iff]
  have hnn := sampleVariance_nonneg (ratesOfChange history)
  constructor
  · rintro ⟨a, b, c, d, e⟩
    refine ⟨a, b, c, ?_, (zScoreGE_eq_true_iff _ _ _ d).mp e⟩
    rw [Ne, Real.sqrt_eq_zero']
    push_neg
    exact_mod_cast d
  · rintro ⟨a, b, c, hs, hz⟩
    have d : 0 < sampleVariance (ratesOfChange history) := by
      by_contra hle
      push_neg at hle
      apply hs
      rw [Real.sqrt_eq_zero']
      exact_mod_cast hle
    exact ⟨a, b, c, d, (zScoreGE_eq_true_iff _ _ _ d).mpr hz⟩

/-- Witness for C1: on a history with equal deltas (50, 50, 50) and a large
current rate, the flat-series clause of the characterization yields no event. -/
theorem volume_check_characterization_witness :
    detect_volume_spike defaultConfig 0 (sampleMarket 1200 none none none) flatHistory
      = none := by
  refine (volume_check_characterization defaultConfig 0 (sampleMarket 1200 none none none)
    flatHistory).2.2 50 ?_
  norm_num [ratesOfChange, flatHistory, sampleSnap]

theorem sqrt_sampleVariance_volHistory :
    Real.sqrt ((sampleVariance (ratesOfChange volHistory) : ℚ) : ℝ) = 20 := by
  have hr : ratesOfChange volHistory = [50, 30, 70] := by
    norm_num [ratesOfChange, volHistory, sampleSnap]
  have hv : sampleVariance (ratesOfChange volHistory) = 400 := by
    rw [hr]
    norm_num [sampleVariance, mean]
  rw [hv, show ((400 : ℚ) : ℝ) = 20 ^ 2 by norm_num]
  exact Real.sqrt_sq (by norm_num)

/-- C2, counterexample: on the spec's concrete volume history the deltas are
`[50, 30, 70]` with mean 50 and current rate 200 as claimed, but the sample
standard deviation is exactly 20 — not ≈ 20.82 as the claim states (it is not
even within 0.1 of 20.82) — and the z-score is exactly 7.5, not ≈ 7.20. -/
theorem volume_concrete_claim_false :
    ratesOfChange volHistory = [50, 30, 70] ∧
    mean (ratesOfChange volHistory) = 50 ∧
    (((sampleMarket 1200 none none none).volume : ℚ) - headVolume volHistory) = 200 ∧
    Real.sqrt ((sampleVariance (ratesOfChange volHistory) : ℚ) : ℝ) = 20 ∧
    ¬ (|Real.sqrt ((sampleVariance (ratesOfChange volHistory) : ℚ) : ℝ) - 20.82| ≤ 1 / 10) ∧
    ((200 - mean (ratesOfChange volHistory) : ℚ) : ℝ) /
        Real.sqrt ((sampleVariance (ratesOfChange volHistory) : ℚ) : ℝ) = 7.5 ∧
    ¬ (|((200 - mean (ratesOfChange volHistory) : ℚ) : ℝ) /
        Real.sqrt ((sampleVariance (ratesOfChange volHistory) : ℚ) : ℝ) - 7.20| ≤ 1 / 10) := by
  have hr : ratesOfChange volHistory = [50, 30, 70] := by
    norm_num [ratesOfChange, volHistory, sampleSnap]
  have hm : mean (ratesOfChange volHistory) = 50 := by
    rw [hr]; norm_num [mean]
  have hs := sqrt_sampleVariance_volHistory
  have hz : ((200 - mean (ratesOfChange volHistory) : ℚ) : ℝ) /
      Real.sqrt ((sampleVariance (ratesOfChange volHistory) : ℚ) : ℝ) = 7.5 := by
    rw [hm, hs]
    norm_num
  refine ⟨hr, hm, by norm_num [sampleMarket, headVolume, volHistory, sampleSnap], hs, ?_, hz, ?_⟩
  · rw [hs, abs_le]
    norm_num
  · rw [hz, abs_le]
    norm_num

/-- C2, amended: on the concrete input history (newest-first volumes
1000, 950, 920, 850), current volume 1200 and threshold 2.0, the volume check
computes deltas `[50, 30, 70]`, mean 50, sample standard deviation exactly 20,
current rate 200 and z-score exactly 7.5, and fires exactly one Volume event
whose `average_value` equals 50. -/
theorem volume_concrete_amended :
    ratesOfChange volHistory = [50, 30, 70] ∧
    mean (ratesOfChange volHistory) = 50 ∧
    (((sampleMarket 1200 none none none).volume : ℚ) - headVolume volHistory) = 200 ∧
    Real.sqrt ((sampleVariance (ratesOfChange volHistory) : ℚ) : ℝ) = 20 ∧
    ((200 - mean (ratesOfChange volHistory) : ℚ) : ℝ) /
        Real.sqrt ((sampleVariance (ratesOfChange volHistory) : ℚ) : ℝ) = 7.5 ∧
    ∃ e, detect_volume_spike defaultConfig 0 (sampleMarket 1200 none none none) volHistory
          = some e ∧
        e.spike_type = SpikeType.volume ∧ e.average_value = 50 := by
  have hr : ratesOfChange volHistory = [50, 30, 70] := by
    norm_num [ratesOfChange, volHistory, sampleSnap]
  have hm : mean (ratesOfChange volHistory) = 50 := by
    rw [hr]; norm_num [mean]
  have hv : sampleVariance (ratesOfChange volHistory) = 400 := by
    rw [hr]; norm_num [sampleVariance, mean]
  have hcur : ((sampleMarket 1200 none none none).volume : ℚ) - headVolume volHistory = 200 := by
    norm_num [sampleMarket, headVolume, volHistory, sampleSnap]
  have hs := sqrt_sampleVariance_volHistory
  have hsome : (detect_volume_spike defaultConfig 0 (sampleMarket 1200 none none none)
      volHistory).isSome := by
    rw [detect_volume_spike_isSome_iff]
    refine ⟨by norm_num [volHistory], by rw [hr]; norm_num, by rw [hcur]; norm_num,
      by rw [hv]; norm_num, ?_⟩
    rw [hcur, hm, hv]
    norm_num [zScoreGE, defaultConfig]
  obtain ⟨e, he⟩ := Option.isSome_iff_exists.mp hsome
  have hfields := detect_volume_spike_eq_some defaultConfig 0 (sampleMarket 1200 none none none)
    volHistory e he
  refine ⟨hr, hm, hcur, hs, by rw [hm, hs]; norm_num, e, he, hfields.2.2.2, ?_⟩
  rw [hfields.2.2.1, hm]

theorem referenceSnapshot_eq_find_or_getLast (cutoff : ℤ) (history : List MarketSnapshot) :
    referenceSnapshot cutoff history =
      (history.find? fun s => decide (s.timestamp ≤ cutoff)).or history.getLast? := by
  induction history with
  | nil => rfl
  | cons s rest ih =>
    simp only [referenceSnapshot, List.find?_cons]
    by_cases hs : s.timestamp ≤ cutoff
    · simp [hs]
    · simp only [if_neg hs, decide_eq_true_eq, hs, decide_False]
      cases rest with
      | nil => rfl
      | cons r rs =>
        rw [ih, List.getLast?_cons_cons]
        simp

/-- The reference history of the concrete price-spike example: a single
snapshot at time 0 with last price 130 cents. -/
def priceHistory : List MarketSnapshot := [sampleSnapQuotes 0 (some 130) none none]

/-- C3: the price check selects as reference the first snapshot (scanning in
history order, newest first) at or before `now` minus the window, falling back
to the last snapshot scanned; it fires no event when no reference exists or
the reference lacks a price, and otherwise fires iff
`|current/100 - reference/100| ≥ price_spike_threshold`, with the two dollar
prices as `current_value` / `previous_value` (and `average_value` reusing the
reference price) and direction `"up"` iff current exceeds reference.  On the
concrete example (window 5 min, threshold $0.10, current 150¢, qualifying
reference 130¢) the event has values 1.50 / 1.30 and direction `"up"`. -/
theorem price_check_characterization (cfg : Config) (now : ℤ) (market : Market)
    (history : List MarketSnapshot) (lp : ℚ) (hlp : market.last_price = some lp) :
    (referenceSnapshot (now - 60 * cfg.price_spike_window_minutes) history =
      (history.find? fun s =>
        decide (s.timestamp ≤ now - 60 * cfg.price_spike_window_minutes)).or
        history.getLast?) ∧
    (referenceSnapshot (now - 60 * cfg.price_spike_window_minutes) history = none →
      detect_price_spike cfg now market history = none) ∧
    (∀ ref, referenceSnapshot (now - 60 * cfg.price_spike_window_minutes) history = some ref →
      ref.last_price = none → detect_price_spike cfg now market history = none) ∧
    (∀ ref rp, referenceSnapshot (now - 60 * cfg.price_spike_window_minutes) history = some ref →
      ref.last_price = some rp →
      ((detect_price_spike cfg now market history).isSome ↔
        cfg.price_spike_threshold ≤ |lp / 100 - rp / 100|) ∧
      (∀ e, detect_price_spike cfg now market history = some e →
        e.current_value = lp / 100 ∧ e.previous_value = rp / 100 ∧
        e.average_value = rp / 100 ∧
        e.extra_info = ExtraInfo.priceInfo cfg.price_spike_window_minutes
          (if rp / 100 < lp / 100 then "up" else "down"))) ∧
    (∃ e, detect_price_spike defaultConfig 300 (sampleMarket 0 (some 150) none none)
        priceHistory = some e ∧
      e.current_value = 3 / 2 ∧ e.previous_value = 13 / 10 ∧
      e.extra_info = ExtraInfo.priceInfo 5 "up") := by
  refine ⟨referenceSnapshot_eq_find_or_getLast _ _, ?_, ?_, ?_, ?_⟩
  · intro href
    simp only [detect_price_spike, hlp, href]
  · intro ref href hrp
    simp only [detect_price_spike, hlp, href, hrp]
  · intro ref rp href hrp
    simp only [detect_price_spike, hlp, href, hrp]
    constructor
    · by_cases hfire : cfg.price_spike_threshold ≤ |lp / 100 - rp / 100|
      · simp [hfire]
      · simp [hfire]
    · intro e he
      split at he
      · cases he
        simp
      · exact absurd he (by simp)
  · have href : referenceSnapshot (300 - 60 * defaultConfig.price_spike_window_minutes)
        priceHistory = some (sampleSnapQuotes 0 (some 130) none none) := by
      norm_num [referenceSnapshot, priceHistory, defaultConfig, sampleSnapQuotes]
    refine ⟨?_, ?_⟩
    · exact
        { spike_type := SpikeType.price
          ticker := "KXTEST"
          title := "Test market"
          subtitle := ""
          timestamp := 300
          current_value := 3 / 2
          previous_value := 13 / 10
          average_value := 13 / 10
          threshold := 1 / 10
          url := "https://kalshi.com/markets/kxtest"
          extra_info := ExtraInfo.priceInfo 5 "up" }
    · simp only [detect_price_spike, sampleMarket, href, sampleSnapQuotes]
      rw [if_pos (by norm_num [defaultConfig, abs_of_nonneg])]
      norm_num [defaultConfig]

/-- Witness for C3: the concrete price-spike example, obtained by applying the
characterization with the hypothesis `last_price = some 150` discharged. -/
theorem price_check_characterization_witness :
    ∃ e, detect_price_spike defaultConfig 300 (sampleMarket 0 (some 150) none none)
        priceHistory = some e ∧
      e.current_value = 3 / 2 ∧ e.previous_value = 13 / 10 ∧
      e.extra_info = ExtraInfo.priceInfo 5 "up" :=
  (price_check_characterization defaultConfig 300 (sampleMarket 0 (some 150) none none)
    priceHistory 150 rfl).2.2.2.2

/-- The history of the concrete spread-compression example: three snapshots
whose bid/ask spreads are 5, 6 and 7 cents. -/
def spreadHistory : List MarketSnapshot :=
  [sampleSnapQuotes 30 none (some 40) (some 45),
   sampleSnapQuotes 20 none (some 40) (some 46),
   sampleSnapQuotes 10 none (some 40) (some 47)]

/-- C4: the spread-compression check fires no event when bid or ask is absent,
when the current spread is nonpositive, or when fewer than 3 historical
spreads qualify; otherwise it fires iff
`current_spread / avg ≤ 1 - spread_compression_threshold`, carrying the
current spread, the first qualifying historical spread and the mean of the
qualifying spreads.  Concretely, bid/ask 48/50¢ against historical spreads
`[0.05, 0.06, 0.07]` fires at threshold 0.5 (ratio 1/3 ≤ 1/2), and the same
inputs fire nothing at threshold 0.9. -/
theorem spread_check_characterization (cfg : Config) (now : ℤ) (market : Market)
    (history : List MarketSnapshot) :
    (market.yes_bid = none ∨ market.yes_ask = none →
      detect_spread_compression cfg now market history = none) ∧
    (∀ b a, market.yes_bid = some b → market.yes_ask = some a →
      ((detect_spread_compression cfg now market history).isSome ↔
        0 < (a - b) / 100 ∧ 3 ≤ (historicalSpreads history).length ∧
        ((a - b) / 100) / mean (historicalSpreads history) ≤
          1 - cfg.spread_compression_threshold) ∧
      (∀ e, detect_spread_compression cfg now market history = some e →
        e.current_value = (a - b) / 100 ∧
        e.previous_value = (historicalSpreads history).headI ∧
        e.average_value = mean (historicalSpreads history) ∧
        e.spike_type = SpikeType.spread_compression)) ∧
    (∃ e, detect_spread_compression defaultConfig 0
        (sampleMarket 0 none (some 48) (some 50)) spreadHistory = some e ∧
      e.current_value = 1 / 50 ∧ e.previous_value = 1 / 20 ∧ e.average_value = 3 / 50) ∧
    detect_spread_compression ⟨2, 1 / 10, 5, 9 / 10⟩ 0
      (sampleMarket 0 none (some 48) (some 50)) spreadHistory = none := by
  have hsp : historicalSpreads spreadHistory = [1 / 20, 3 / 50, 7 / 100] := by
    simp only [historicalSpreads, spreadHistory, sampleSnapQuotes, List.filterMap_cons,
      List.filterMap_nil]
    norm_num
  have hmean : mean [(1 : ℚ) / 20, 3 / 50, 7 / 100] = 3 / 50 := by
    norm_num [mean]
  refine ⟨?_, ?_, ?_, ?_⟩
  · rintro (hb | ha)
    · simp only [detect_spread_compression, hb]
    · cases hyb : market.yes_bid with
      | none => simp only [detect_spread_compression, hyb]
      | some b => simp only [detect_spread_compression, hyb, ha]
  · intro b a hb ha
    constructor
    · simp only [detect_spread_compression, hb, ha]
      by_cases h1 : (a - b) / 100 ≤ 0
      · simp only [if_pos h1, Option.isSome_none, Bool.false_eq_true, false_iff]
        rintro ⟨h2, -⟩; linarith
      · simp only [if_neg h1]
        by_cases h2 : (historicalSpreads history).length < 3
        · simp only [if_pos h2, Option.isSome_none, Bool.false_eq_true, false_iff]
          rintro ⟨-, h3, -⟩; omega
        · simp only [if_neg h2]
          by_cases h3 : ((a - b) / 100) / mean (historicalSpreads history) ≤
              1 - cfg.spread_compression_threshold
          · simp only [if_pos h3, Option.isSome_some, true_iff]
            exact ⟨by linarith, by omega, h3⟩
          · simp only [if_neg h3, Option.isSome_none, Bool.false_eq_true, false_iff]
            rintro ⟨-, -, h4⟩; exact h3 h4
    · intro e he
      simp only [detect_spread_compression, hb, ha] at he
      split at he
      · exact absurd he (by simp)
      · split at he
        · exact absurd he (by simp)
        · split at he
          · cases he
            simp
          · exact absurd he (by simp)
  · refine ⟨?_, ?_⟩
    · exact
        { spike_type := SpikeType.spread_compression
          ticker := "KXTEST"
          title := "Test market"
          subtitle := ""
          timestamp := 0
          current_value := 1 / 50
          previous_value := 1 / 20
          average_value := 3 / 50
          threshold := 1 / 2
          url := "https://kalshi.com/markets/kxtest"
          extra_info := ExtraInfo.spreadInfo (48 / 100) (50 / 100) (1 / 3) }
    · simp only [detect_spread_compression, sampleMarket]
      rw [if_neg (by norm_num), if_neg (by rw [hsp]; norm_num),
        if_pos (by rw [hsp, hmean]; norm_num [defaultConfig])]
      rw [hsp, hmean]
      norm_num [defaultConfig]
  · simp only [detect_spread_compression, sampleMarket]
    rw [if_neg (by norm_num), if_neg (by rw [hsp]; norm_num),
      if_neg (by rw [hsp, hmean]; norm_num)]

/-- Witness for C4: with an absent bid the check is skipped. -/
theorem spread_check_characterization_witness :
    detect_spread_compression defaultConfig 0 (sampleMarket 0 none none none)
      spreadHistory = none :=
  (spread_check_characterization defaultConfig 0 (sampleMarket 0 none none none)
    spreadHistory).1 (Or.inl rfl)

/-- Snapshots for the order-dependence counterexample: two of them share a
timestamp, so the stable re-sort keeps them in caller order. -/
def tieA : MarketSnapshot := sampleSnap 2 100

/-- Second tied snapshot (timestamp 1, volume 0). -/
def tieB : MarketSnapshot := sampleSnap 1 0

/-- Third tied snapshot (timestamp 1, volume 90). -/
def tieC : MarketSnapshot := sampleSnap 1 90

/-- The current market state of the order-dependence counterexample. -/
def tieMarket : Market := sampleMarket 1000 none none none

theorem detect_spikes_tie_first_order :
    detect_spikes defaultConfig 0 tieMarket [tieA, tieB, tieC] = [] := by
  simp only [detect_spikes]
  rw [if_neg (by norm_num), List.mergeSort_of_sorted (by decide)]
  have hv : detect_volume_spike defaultConfig 0 tieMarket [tieA, tieB, tieC] = none := by
    simp only [detect_volume_spike]
    rw [if_neg (by norm_num)]
    rw [if_pos]
    have hr : ratesOfChange [tieA, tieB, tieC] = [100] := by
      norm_num [ratesOfChange, tieA, tieB, tieC, sampleSnap]
    rw [hr]
    norm_num
  rw [hv]
  simp [detect_price_spike, detect_spread_compression, tieMarket, sampleMarket]

theorem detect_spikes_tie_second_order :
    detect_spikes defaultConfig 0 tieMarket [tieA, tieC, tieB] ≠ [] := by
  have hr : ratesOfChange [tieA, tieC, tieB] = [10, 90] := by
    norm_num [ratesOfChange, tieA, tieB, tieC, sampleSnap]
  have hv : (detect_volume_spike defaultConfig 0 tieMarket [tieA, tieC, tieB]).isSome := by
    rw [detect_volume_spike_isSome_iff]
    refine ⟨by norm_num, by rw [hr]; norm_num, by norm_num [tieMarket, sampleMarket,
      headVolume, tieA, sampleSnap], ?_, ?_⟩
    · rw [hr]
      norm_num [sampleVariance, mean]
    · rw [hr]
      have hm : mean [(10 : ℚ), 90] = 50 := by norm_num [mean]
      have hsv : sampleVariance [(10 : ℚ), 90] = 3200 := by
        norm_num [sampleVariance, mean]
      rw [hm, hsv,
        show ((tieMarket.volume : ℚ) - headVolume [tieA, tieC, tieB]) = 900 by
          norm_num [tieMarket, sampleMarket, headVolume, tieA, sampleSnap]]
      norm_num [zScoreGE, defaultConfig]
  obtain ⟨e, he⟩ := Option.isSome_iff_exists.mp hv
  simp only [detect_spikes]
  rw [if_neg (by norm_num), List.mergeSort_of_sorted (by decide), he]
  simp

/-- C5, counterexample: `detect_spikes` is NOT invariant under permutations of
the input history.  With two snapshots sharing a timestamp (volumes 0 and 90
at time 1, below a newer snapshot of volume 100 at time 2), the stable
re-sort preserves the caller's order of the tied pair, and one order yields
no event while the other fires a volume spike. -/
theorem detect_spikes_order_dependent :
    [tieA, tieB, tieC].Perm [tieA, tieC, tieB] ∧
    detect_spikes defaultConfig 0 tieMarket [tieA, tieB, tieC] ≠
      detect_spikes defaultConfig 0 tieMarket [tieA, tieC, tieB] := by
  refine ⟨by decide, ?_⟩
  rw [detect_spikes_tie_first_order]
  intro h
  exact detect_spikes_tie_second_order h.symm

/-- C5, amended: for histories whose timestamps are pairwise distinct,
`detect_spikes` depends only on the set of snapshots: any two permutations of
the same snapshots produce identical output (the detector re-sorts the
history itself, and with distinct sort keys the re-sort is
order-oblivious). -/
theorem detect_spikes_perm_invariant (cfg : Config) (now : ℤ) (market : Market)
    (l1 l2 : List MarketSnapshot) (hperm : l1.Perm l2)
    (hts : (l1.map (fun s => s.timestamp)).Nodup) :
    detect_spikes cfg now market l1 = detect_spikes cfg now market l2 := by
  have hlen := hperm.length_eq
  by_cases hshort : l1.length < 2
  · simp only [detect_spikes]
    rw [if_pos hshort, if_pos (hlen ▸ hshort)]
  · have htrans : ∀ a b c : MarketSnapshot,
        (decide (b.timestamp ≤ a.timestamp)) = true →
        (decide (c.timestamp ≤ b.timestamp)) = true →
        (decide (c.timestamp ≤ a.timestamp)) = true := by
      intro a b c hab hbc
      simp only [decide_eq_true_eq] at *
      omega
    have htotal : ∀ a b : MarketSnapshot,
        ((decide (b.timestamp ≤ a.timestamp)) || (decide (a.timestamp ≤ b.timestamp))) = true := by
      intro a b
      simp only [Bool.or_eq_true, decide_eq_true_eq]
      omega
    have hsortEq :
        l1.mergeSort (fun a b => decide (b.timestamp ≤ a.timestamp)) =
          l2.mergeSort (fun a b => decide (b.timestamp ≤ a.timestamp)) := by
      have hp : (l1.mergeSort (fun a b => decide (b.timestamp ≤ a.timestamp))).Perm
          (l2.mergeSort (fun a b => decide (b.timestamp ≤ a.timestamp))) :=
        ((l1.mergeSort_perm _).trans hperm).trans (l2.mergeSort_perm _).symm
      have hn1 : ((l1.mergeSort (fun a b => decide (b.timestamp ≤ a.timestamp))).map
          (fun s => s.timestamp)).Nodup :=
        (((l1.mergeSort_perm (fun a b => decide (b.timestamp ≤ a.timestamp))).map
          (fun s => s.timestamp)).nodup_iff).mpr hts
      have hn2 : ((l2.mergeSort (fun a b => decide (b.timestamp ≤ a.timestamp))).map
          (fun s => s.timestamp)).Nodup := (hp.map (fun s => s.timestamp)).nodup_iff.mp hn1
      have hstrict : ∀ l : List MarketSnapshot,
          List.Pairwise (fun a b =>
            (decide (b.timestamp ≤ a.timestamp)) = true) l →
          (l.map (fun s => s.timestamp)).Nodup →
          List.Pairwise (fun a b : MarketSnapshot => b.timestamp < a.timestamp) l := by
        intro l hle hnd
        have hne : List.Pairwise
            (fun a b : MarketSnapshot => a.timestamp ≠ b.timestamp) l :=
          List.pairwise_map.mp hnd
        refine (hle.and hne).imp ?_
        rintro a b ⟨h1, h2⟩
        simp only [decide_eq_true_eq] at h1
        omega
      have hs1 := hstrict _ (List.sorted_mergeSort htrans htotal l1) hn1
      have hs2 := hstrict _ (List.sorted_mergeSort htrans htotal l2) hn2
      haveI : IsAntisymm MarketSnapshot
          (fun a b : MarketSnapshot => b.timestamp < a.timestamp) :=
        ⟨fun a b h1 h2 => absurd (lt_trans h1 h2) (lt_irrefl _)⟩
      exact List.eq_of_perm_of_sorted hp hs1 hs2
    simp only [detect_spikes]
    rw [if_neg hshort, if_neg (hlen ▸ hshort), hsortEq]

/-- Witness for C5 (amended): swapping two snapshots with distinct timestamps
does not change the detector output. -/
theorem detect_spikes_perm_invariant_witness :
    detect_spikes defaultConfig 0 tieMarket [sampleSnap 2 100, sampleSnap 1 50] =
      detect_spikes defaultConfig 0 tieMarket [sampleSnap 1 50, sampleSnap 2 100] :=
  detect_spikes_perm_invariant defaultConfig 0 tieMarket _ _ (by decide) (by decide)


/-- Embeds `auth.AuthToken`. -/
structure AuthToken where
  token : String
  member_id : String
  expires_at : ℤ
deriving DecidableEq

/-- Embeds `AuthToken.is_expired`: true when `now >= expires_at - buffer_seconds`. -/
def AuthToken.is_expired (tok : AuthToken) (now buffer_seconds : ℤ) : Bool :=
  decide (tok.expires_at - buffer_seconds ≤ now)

/-- The payload of one successful login exchange. -/
structure LoginResult where
  token : String
  member_id : String
deriving DecidableEq

/-- Embeds `KalshiAuth._login`: builds the replacement cache entry, assigning its own
expiry of 23 hours from now regardless of the server-declared lifetime. -/
def login (now : ℤ) (fresh : LoginResult) : AuthToken :=
  ⟨fresh.token, fresh.member_id, now + 23 * 3600⟩

/-- Embeds `KalshiAuth.get_token`: login exactly when the cache is empty or expired
(with the default 60-second buffer), then return the cached token string
together with the resulting cache. -/
def get_token (now : ℤ) (cache : Option AuthToken) (fresh : LoginResult) :
    String × Option AuthToken :=
  match cache with
  | none => ((login now fresh).token, some (login now fresh))
  | some tok =>
    if tok.is_expired now 60 then ((login now fresh).token, some (login now fresh))
    else (tok.token, some tok)

/-- Embeds `KalshiAuth.clear_token`. -/
def clear_token (_cache : Option AuthToken) : Option AuthToken := none

/-- C8: `get_token` returns the cached token exactly when one is present and
`now` is strictly before its expiry minus the 60-second buffer; otherwise it
performs one login and replaces the cache wholesale with a token expiring 23
hours (82800 seconds) from now; and `clear_token` unconditionally empties the
cache, so the next `get_token` performs a login. -/
theorem get_token_spec (now : ℤ) (cache : Option AuthToken) (fresh : LoginResult) :
    (∀ tok, cache = some tok → now < tok.expires_at - 60 →
      get_token now cache fresh = (tok.token, some tok)) ∧
    (∀ tok, cache = some tok → tok.expires_at - 60 ≤ now →
      get_token now cache fresh =
        (fresh.token, some ⟨fresh.token, fresh.member_id, now + 23 * 3600⟩)) ∧
    (cache = none →
      get_token now cache fresh =
        (fresh.token, some ⟨fresh.token, fresh.member_id, now + 23 * 3600⟩)) ∧
    ((get_token now cache fresh).2 = cache ↔
      ∃ tok, cache = some tok ∧ now < tok.expires_at - 60) ∧
    clear_token cache = none ∧
    get_token now (clear_token cache) fresh =
      (fresh.token, some ⟨fresh.token, fresh.member_id, now + 23 * 3600⟩) := by
  refine ⟨?_, ?_, ?_, ?_, rfl, rfl⟩
  · intro tok htok hfresh
    have : tok.is_expired now 60 = false := by
      simp only [AuthToken.is_expired, decide_eq_false_iff_not]
      omega
    simp [get_token, htok, this]
  · intro tok htok hexp
    have : tok.is_expired now 60 = true := by
      simp only [AuthToken.is_expired, decide_eq_true_eq]
      omega
    simp [get_token, htok, this, login]
  · intro hnone
    simp [get_token, hnone, login]
  · cases htok : cache with
    | none =>
      simp only [get_token, login]
      constructor
      · intro h
        exact absurd h (by simp)
      · rintro ⟨tok, htok', -⟩
        exact absurd htok' (by simp)
    | some tok =>
      by_cases hexp : tok.is_expired now 60
      · simp only [get_token, if_pos hexp]
        constructor
        · intro h
          exfalso
          simp only [Option.some.injEq] at h
          have : tok.expires_at = now + 23 * 3600 := by
            rw [← h]
            rfl
          simp only [AuthToken.is_expired, decide_eq_true_eq] at hexp
          omega
        · rintro ⟨tok', htok', hfresh⟩
          simp only [Option.some.injEq] at htok'
          subst htok'
          simp only [AuthToken.is_expired, decide_eq_true_eq] at hexp
          omega
      · simp only [get_token, if_neg hexp]
        simp only [AuthToken.is_expired, decide_eq_true_eq, not_le] at hexp
        exact ⟨fun _ => ⟨tok, rfl, by omega⟩, fun _ => trivial⟩

/-- Witness for C8: a fresh cache entry expiring at time 1000 is returned
unchanged at time 0. -/
theorem get_token_spec_witness :
    get_token 0 (some ⟨"cached", "m1", 1000⟩) ⟨"fresh", "m2"⟩ =
      ("cached", some ⟨"cached", "m1", 1000⟩) :=
  (get_token_spec 0 (some ⟨"cached", "m1", 1000⟩) ⟨"fresh", "m2"⟩).1
    ⟨"cached", "m1", 1000⟩ rfl (by norm_num)

/-- The abstract outcome of one `_poll_cycle` attempt in `MarketScanner.start`. -/
inductive CycleOutcome where
  | ok
  | httpStatusError (status : ℕ)
  | otherError
deriving DecidableEq

/-- The scanner state the recovery policy acts on: the `_running` flag and the
auth token cache. -/
structure ScannerState where
  running : Bool
  token : Option AuthToken
deriving DecidableEq

/-- One iteration of the `while self._running` body of `MarketScanner.start`:
an `httpx.HTTPStatusError` with status 401 clears the token cache, every
other failure is merely logged, and control falls through to the inter-cycle
wait in every case. -/
def runCycleStep (s : ScannerState) (o : CycleOutcome) : ScannerState :=
  match o with
  | CycleOutcome.httpStatusError n => if n = 401 then ⟨s.running, none⟩ else s
  | _ => s

/-- Embeds `MarketScanner.stop`: clears the running flag. -/
def stopScanner (s : ScannerState) : ScannerState := ⟨false, s.token⟩

/-- The scanner loop over a stream of cycle outcomes: handles outcomes while
the running flag holds and stops as soon as it is cleared. -/
def scannerRun (s : ScannerState) : List CycleOutcome → ScannerState
  | [] => s
  | o :: rest => if s.running then scannerRun (runCycleStep s o) rest else s

/-- C7: a cycle failing with HTTP 401 clears the token cache; a cycle failing
with any other error leaves the cache untouched; no outcome alters the
running flag, so the loop survives every stream of failures and ends only by
an explicit stop request clearing the flag. -/
theorem scanner_loop_recovery (s : ScannerState) (o : CycleOutcome)
    (outcomes : List CycleOutcome) :
    (runCycleStep s o).running = s.running ∧
    ((runCycleStep s o).token =
      if o = CycleOutcome.httpStatusError 401 then none else s.token) ∧
    (s.running = true → (scannerRun s outcomes).running = true) ∧
    (s.running = false → scannerRun s outcomes = s) ∧
    (stopScanner s).running = false := by
  have hrun : ∀ (s' : ScannerState) (o' : CycleOutcome),
      (runCycleStep s' o').running = s'.running := by
    intro s' o'
    cases o' with
    | httpStatusError n =>
      by_cases hn : n = 401
      · simp [runCycleStep, hn]
      · simp [runCycleStep, hn]
    | ok => rfl
    | otherError => rfl
  refine ⟨hrun s o, ?_, ?_, ?_, rfl⟩
  · cases o with
    | httpStatusError n =>
      by_cases hn : n = 401
      · simp [runCycleStep, hn]
      · simp [runCycleStep, hn]
    | ok => simp [runCycleStep]
    | otherError => simp [runCycleStep]
  · intro hs
    induction outcomes generalizing s with
    | nil => exact hs
    | cons o' rest ih =>
      rw [scannerRun, if_pos hs]
      exact ih _ ((hrun s o').trans hs)
  · intro hs
    cases outcomes with
    | nil => rfl
    | cons o' rest =>
      rw [scannerRun, if_neg (by rw [hs]; exact Bool.false_ne_true)]

/-- Witness for C7: a loop hit by a 401 and then a generic error is still
running afterwards. -/
theorem scanner_loop_recovery_witness :
    (scannerRun ⟨true, some ⟨"t", "m", 1000⟩⟩
      [CycleOutcome.httpStatusError 401, CycleOutcome.otherError]).running = true :=
  (scanner_loop_recovery ⟨true, some ⟨"t", "m", 1000⟩⟩ CycleOutcome.ok
    [CycleOutcome.httpStatusError 401, CycleOutcome.otherError]).2.2.1 rfl


theorem historicalSpreads_pos (history : List MarketSnapshot) :
    ∀ x ∈ historicalSpreads history, 0 < x := by
  intro x hx
  obtain ⟨s, -, hs⟩ := List.mem_filterMap.mp hx
  revert hs
  cases s.yes_bid with
  | none => intro h; cases h
  | some b =>
    cases s.yes_ask with
    | none => intro h; cases h
    | some a =>
      simp only []
      split
      · intro h
        cases h
        assumption
      · intro h
        cases h

theorem mean_pos (l : List ℚ) (hpos : ∀ x ∈ l, 0 < x) (hne : l ≠ []) : 0 < mean l := by
  apply div_pos (List.sum_pos l hpos hne)
  exact_mod_cast List.length_pos.mpr hne

theorem detect_spread_compression_pos (cfg : Config) (now : ℤ) (market : Market)
    (history : List MarketSnapshot) (e : SpikeEvent)
    (he : detect_spread_compression cfg now market history = some e) :
    0 < e.current_value ∧ 0 < e.average_value := by
  revert he
  cases hb : market.yes_bid with
  | none => intro he; exact absurd he (by simp [detect_spread_compression, hb])
  | some b =>
    cases ha : market.yes_ask with
    | none => intro he; exact absurd he (by simp [detect_spread_compression, hb, ha])
    | some a =>
      intro he
      simp only [detect_spread_compression, hb, ha] at he
      split at he
      · exact absurd he (by simp)
      · split at he
        · exact absurd he (by simp)
        · rename_i h1 h2
          split at he
          · cases he
            refine ⟨by simpa using lt_of_not_le h1, ?_⟩
            apply mean_pos _ (historicalSpreads_pos history)
            intro hnil
            rw [hnil] at h2
            simp at h2
          · exact absurd he (by simp)

theorem detect_price_spike_type (cfg : Config) (now : ℤ) (market : Market)
    (history : List MarketSnapshot) (e : SpikeEvent)
    (he : detect_price_spike cfg now market history = some e) :
    e.spike_type = SpikeType.price := by
  simp only [detect_price_spike] at he
  split at he
  · exact absurd he (by simp)
  · split at he
    · exact absurd he (by simp)
    · split at he
      · exact absurd he (by simp)
      · split at he
        · cases he
          rfl
        · exact absurd he (by simp)

/-- C9: every SpreadCompression event produced by `detect_spikes` has strictly
positive `current_value` and `average_value` (in particular the average is
nonzero), so the compression percentage
`(1 - current_value / average_value) * 100` computed when the event's message
is formatted never divides by zero. -/
theorem spread_event_division_safe (cfg : Config) (now : ℤ) (market : Market)
    (history : List MarketSnapshot) (e : SpikeEvent)
    (he : e ∈ detect_spikes cfg now market history)
    (hty : e.spike_type = SpikeType.spread_compression) :
    0 < e.current_value ∧ 0 < e.average_value ∧ e.average_value ≠ 0 := by
  simp only [detect_spikes] at he
  split at he
  · cases he
  · rw [List.mem_append, List.mem_append] at he
    rcases he with (hv | hp) | hs
    · rw [Option.mem_toList, Option.mem_def] at hv
      have := (detect_volume_spike_eq_some cfg now market _ e hv).2.2.2
      rw [hty] at this
      cases this
    · rw [Option.mem_toList, Option.mem_def] at hp
      have := detect_price_spike_type cfg now market _ e hp
      rw [hty] at this
      cases this
    · rw [Option.mem_toList, Option.mem_def] at hs
      have h := detect_spread_compression_pos cfg now market _ e hs
      exact ⟨h.1, h.2, ne_of_gt h.2⟩

/-- Witness for C9: the concrete spread-compression event of the example data
has positive current and average spread. -/
theorem spread_event_division_safe_witness :
    ∃ e, e ∈ detect_spikes defaultConfig 0 (sampleMarket 0 none (some 48) (some 50))
        spreadHistory ∧
      0 < e.current_value ∧ 0 < e.average_value ∧ e.average_value ≠ 0 := by
  have hsp : historicalSpreads spreadHistory = [1 / 20, 3 / 50, 7 / 100] := by
    simp only [historicalSpreads, spreadHistory, sampleSnapQuotes, List.filterMap_cons,
      List.filterMap_nil]
    norm_num
  have hmean : mean [(1 : ℚ) / 20, 3 / 50, 7 / 100] = 3 / 50 := by
    norm_num [mean]
  have hspread : detect_spread_compression defaultConfig 0
      (sampleMarket 0 none (some 48) (some 50)) spreadHistory ≠ none := by
    simp only [detect_spread_compression, sampleMarket]
    rw [if_neg (by norm_num), if_neg (by rw [hsp]; norm_num),
      if_pos (by rw [hsp, hmean]; norm_num [defaultConfig])]
    simp
  obtain ⟨e, he⟩ := Option.ne_none_iff_exists'.mp hspread
  have hmem : e ∈ detect_spikes defaultConfig 0 (sampleMarket 0 none (some 48) (some 50))
      spreadHistory := by
    simp only [detect_spikes]
    rw [if_neg (by norm_num [spreadHistory]), List.mergeSort_of_sorted (by decide)]
    rw [List.mem_append, List.mem_append]
    right
    rw [Option.mem_toList, Option.mem_def]
    exact he
  have htype : e.spike_type = SpikeType.spread_compression := by
    revert he
    simp only [detect_spread_compression, sampleMarket]
    rw [if_neg (by norm_num), if_neg (by rw [hsp]; norm_num),
      if_pos (by rw [hsp, hmean]; norm_num [defaultConfig])]
    intro he
    cases he
    rfl
  exact ⟨e, hmem, spread_event_division_safe defaultConfig 0
    (sampleMarket 0 none (some 48) (some 50)) spreadHistory e hmem htype⟩


/-- A Python value as it may appear in a decoded API response record.
`collector.Market.from_api_response` receives `dict[str, Any]`; the
constructors cover the JSON-decodable scalars the code can meet. -/
inductive PyVal where
  | none
  | bool (b : Bool)
  | int (n : ℤ)
  | float (q : ℚ)
  | str (s : String)
deriving DecidableEq

/-- Python truthiness of the modelled values. -/
def PyVal.truthy : PyVal → Bool
  | PyVal.none => false
  | PyVal.bool b => b
  | PyVal.int n => decide (n ≠ 0)
  | PyVal.float q => decide (q ≠ 0)
  | PyVal.str s => decide (s ≠ "")

/-- Models `value.lower()`: defined only on strings; on any other value the attribute
access raises, modelled as `Option.none`. -/
def PyVal.lower : PyVal → Option String
  | PyVal.str s => some s.toLower
  | _ => Option.none

/-- Models `data.get(key, dflt)` on a decoded record. -/
def pyGet (data : List (String × PyVal)) (key : String) (dflt : PyVal) : PyVal :=
  match data.lookup key with
  | some v => v
  | Option.none => dflt

/-- Python `x or y` restricted to the modelled values. -/
def pyOr (x y : PyVal) : PyVal := if x.truthy then x else y

/-- The `Market` dataclass as built by `from_api_response`, its fields holding
whatever dynamic values the record supplied. -/
structure DynMarket where
  ticker : PyVal
  title : PyVal
  subtitle : PyVal
  status : PyVal
  volume : PyVal
  open_interest : PyVal
  last_price : PyVal
  yes_bid : PyVal
  yes_ask : PyVal
  url : PyVal
deriving DecidableEq

/-- The url expression of `from_api_response`:
`f"https://kalshi.com/markets/\x7bticker.lower()\x7d" if ticker else ""`.
`Option.none` models the `AttributeError` raised by `.lower()` on a truthy
non-string. -/
def tickerUrl (tick : PyVal) : Option PyVal :=
  if tick.truthy then
    tick.lower.map fun low => PyVal.str ("https://kalshi.com/markets/" ++ low)
  else some (PyVal.str "")

/-- The record constructed by `from_api_response` once the url expression has
evaluated. -/
def buildMarket (data : List (String × PyVal)) (url : PyVal) : DynMarket :=
  { ticker := pyGet data "ticker" (PyVal.str "")
    title := pyGet data "title" (PyVal.str "")
    subtitle := pyGet data "subtitle" (PyVal.str "")
    status := pyGet data "status" (PyVal.str "")
    volume := pyOr (pyGet data "volume" (PyVal.int 0)) (PyVal.int 0)
    open_interest := pyOr (pyGet data "open_interest" (PyVal.int 0)) (PyVal.int 0)
    last_price := pyGet data "last_price" PyVal.none
    yes_bid := pyGet data "yes_bid" PyVal.none
    yes_ask := pyGet data "yes_ask" PyVal.none
    url := url }

/-- Embeds `Market.from_api_response`; `Option.none` is an uncaught exception. -/
def from_api_response (data : List (String × PyVal)) : Option DynMarket :=
  (tickerUrl (pyGet data "ticker" (PyVal.str ""))).map (buildMarket data)

/-- C10, counterexample: `from_api_response` does NOT succeed on every record:
a truthy non-string ticker (here the integer 5) makes `ticker.lower()` raise. -/
theorem from_api_response_not_total :
    from_api_response [("ticker", PyVal.int 5)] = Option.none := by
  rfl

theorem buildMarket_field_spec (data : List (String × PyVal)) (u : PyVal) :
    ((data.lookup "volume" = Option.none ∨ data.lookup "volume" = some PyVal.none) →
      (buildMarket data u).volume = PyVal.int 0) ∧
    ((data.lookup "open_interest" = Option.none ∨
        data.lookup "open_interest" = some PyVal.none) →
      (buildMarket data u).open_interest = PyVal.int 0) ∧
    (data.lookup "ticker" = Option.none → (buildMarket data u).ticker = PyVal.str "") ∧
    (data.lookup "title" = Option.none → (buildMarket data u).title = PyVal.str "") ∧
    (data.lookup "subtitle" = Option.none → (buildMarket data u).subtitle = PyVal.str "") ∧
    (data.lookup "status" = Option.none → (buildMarket data u).status = PyVal.str "") ∧
    (data.lookup "last_price" = Option.none → (buildMarket data u).last_price = PyVal.none) ∧
    (data.lookup "yes_bid" = Option.none → (buildMarket data u).yes_bid = PyVal.none) ∧
    (data.lookup "yes_ask" = Option.none → (buildMarket data u).yes_ask = PyVal.none) ∧
    (buildMarket data u).url = u := by
  refine ⟨?_, ?_, ?_, ?_, ?_, ?_, ?_, ?_, ?_, rfl⟩
  · rintro (h | h) <;> simp [buildMarket, pyGet, h, pyOr, PyVal.truthy]
  · rintro (h | h) <;> simp [buildMarket, pyGet, h, pyOr, PyVal.truthy]
  all_goals intro h
  all_goals simp [buildMarket, pyGet, h]

/-- C10, amended: for every input record whose `"ticker"` value — if present
and truthy — is a string, `from_api_response` succeeds and yields a market
whose `volume` and `open_interest` are 0 when the field is missing or null,
whose `ticker`, `title`, `subtitle` and `status` are the empty string when
missing, whose `last_price`, `yes_bid` and `yes_ask` are absent when missing,
and whose url is `"https://kalshi.com/markets/"` followed by the lowercased
ticker when the ticker is a nonempty string, and the empty string when the
ticker is missing or empty. -/
theorem from_api_response_spec (data : List (String × PyVal))
    (hticker : ∀ v, data.lookup "ticker" = some v → v.truthy = true →
      ∃ s, v = PyVal.str s) :
    ∃ m, from_api_response data = some m ∧
      ((data.lookup "volume" = Option.none ∨ data.lookup "volume" = some PyVal.none) →
        m.volume = PyVal.int 0) ∧
      ((data.lookup "open_interest" = Option.none ∨
          data.lookup "open_interest" = some PyVal.none) →
        m.open_interest = PyVal.int 0) ∧
      (data.lookup "ticker" = Option.none → m.ticker = PyVal.str "") ∧
      (data.lookup "title" = Option.none → m.title = PyVal.str "") ∧
      (data.lookup "subtitle" = Option.none → m.subtitle = PyVal.str "") ∧
      (data.lookup "status" = Option.none → m.status = PyVal.str "") ∧
      (data.lookup "last_price" = Option.none → m.last_price = PyVal.none) ∧
      (data.lookup "yes_bid" = Option.none → m.yes_bid = PyVal.none) ∧
      (data.lookup "yes_ask" = Option.none → m.yes_ask = PyVal.none) ∧
      (∀ s, data.lookup "ticker" = some (PyVal.str s) → s ≠ "" →
        m.url = PyVal.str ("https://kalshi.com/markets/" ++ s.toLower)) ∧
      ((data.lookup "ticker" = Option.none ∨ data.lookup "ticker" = some (PyVal.str "")) →
        m.url = PyVal.str "") := by
  have main : ∃ u, tickerUrl (pyGet data "ticker" (PyVal.str "")) = some u ∧
      (∀ s, data.lookup "ticker" = some (PyVal.str s) → s ≠ "" →
        u = PyVal.str ("https://kalshi.com/markets/" ++ s.toLower)) ∧
      ((data.lookup "ticker" = Option.none ∨ data.lookup "ticker" = some (PyVal.str "")) →
        u = PyVal.str "") := by
    cases hlk : data.lookup "ticker" with
    | none =>
      refine ⟨PyVal.str "", ?_, ?_, fun _ => rfl⟩
      · simp [pyGet, hlk, tickerUrl, PyVal.truthy]
      · intro s hs
        cases hs
    | some v =>
      by_cases htr : v.truthy = true
      · obtain ⟨s, rfl⟩ := hticker v hlk htr
        refine ⟨PyVal.str ("https://kalshi.com/markets/" ++ s.toLower), ?_, ?_, ?_⟩
        · simp [pyGet, hlk, tickerUrl, htr, PyVal.lower]
        · intro s2 hs2 hne
          cases hs2
          rfl
        · rintro (h | h)
          · cases h
          · cases h
            simp [PyVal.truthy] at htr
      · refine ⟨PyVal.str "", ?_, ?_, fun _ => rfl⟩
        · simp only [Bool.not_eq_true] at htr
          simp [pyGet, hlk, tickerUrl, htr]
        · intro s2 hs2 hne
          cases hs2
          simp [PyVal.truthy, hne] at htr
  obtain ⟨u, hu, hurl1, hurl2⟩ := main
  have hfields := buildMarket_field_spec data u
  refine ⟨buildMarket data u, ?_, hfields.1, hfields.2.1, hfields.2.2.1, hfields.2.2.2.1,
    hfields.2.2.2.2.1, hfields.2.2.2.2.2.1, hfields.2.2.2.2.2.2.1,
    hfields.2.2.2.2.2.2.2.1, hfields.2.2.2.2.2.2.2.2.1, ?_, ?_⟩
  · rw [from_api_response, hu]
    rfl
  · intro s hs hne
    rw [hfields.2.2.2.2.2.2.2.2.2]
    exact hurl1 s hs hne
  · intro h
    rw [hfields.2.2.2.2.2.2.2.2.2]
    exact hurl2 h

/-- Witness for C10 (amended): a record with a string ticker and a null volume
parses, with the volume defaulted to 0 and the url built from the ticker. -/
theorem from_api_response_spec_witness :
    ∃ m, from_api_response [("ticker", PyVal.str "AB"), ("volume", PyVal.none)] = some m ∧
      m.volume = PyVal.int 0 ∧
      m.url = PyVal.str ("https://kalshi.com/markets/" ++ "AB".toLower) := by
  obtain ⟨m, hm, hvol, -, -, -, -, -, -, -, -, hurl, -⟩ :=
    from_api_response_spec [("ticker", PyVal.str "AB"), ("volume", PyVal.none)]
      (by
        intro v hv htr
        rw [show List.lookup "ticker" [("ticker", PyVal.str "AB"), ("volume", PyVal.none)] =
          some (PyVal.str "AB") from rfl] at hv
        cases hv
        exact ⟨"AB", rfl⟩)
  exact ⟨m, hm, hvol (Or.inr rfl), hurl "AB" rfl (by decide)⟩


/-- A row of the `market_snapshots` table: its autoincrement primary key and
the two columns `prune_old_data` reads (`ticker`, `timestamp`). -/
structure DBRow where
  id : ℕ
  ticker : String
  timestamp : ℤ
deriving DecidableEq

/-- Models `SELECT ... WHERE ticker = ?`, in table order. -/
def tickerRows (table : List DBRow) (t : String) : List DBRow :=
  table.filter fun r => decide (r.ticker = t)

/-- Models `ORDER BY timestamp ASC` (a stable sort on the timestamp key). -/
def sortByTimestampAsc (rows : List DBRow) : List DBRow :=
  rows.mergeSort fun a b => decide (a.timestamp ≤ b.timestamp)

/-- The `GROUP BY ticker ... HAVING cnt > ?` query of `prune_old_data`: each
distinct ticker paired with its row count, kept when the count exceeds the
cap. -/
def tickersToPrune (cap : ℕ) (table : List DBRow) : List (String × ℕ) :=
  (table.map fun r => r.ticker).dedup.filterMap fun t =>
    if cap < (tickerRows table t).length then some (t, (tickerRows table t).length)
    else Option.none

/-- One iteration of the delete loop of `prune_old_data`: the subquery selects
the ids of the `cnt - cap` oldest rows of the ticker and the `DELETE` removes
the rows bearing those ids; the running count grows by `cnt - cap`. -/
def pruneStep (cap : ℕ) (acc : List DBRow × ℕ) (tc : String × ℕ) : List DBRow × ℕ :=
  (acc.1.filter fun r =>
      decide (r.id ∉ ((sortByTimestampAsc (tickerRows acc.1 tc.1)).take (tc.2 - cap)).map
        fun x => x.id),
    acc.2 + (tc.2 - cap))

/-- Embeds `Database.prune_old_data`: prunes every over-cap ticker and returns the
new table paired with the count of deleted rows. -/
def prune_old_data (cap : ℕ) (table : List DBRow) : List DBRow × ℕ :=
  (tickersToPrune cap table).foldl (pruneStep cap) (table, 0)

theorem tickerRows_filter (table : List DBRow) (p : DBRow → Bool) (t : String) :
    tickerRows (table.filter p) t = (tickerRows table t).filter p := by
  simp only [tickerRows, List.filter_filter]
  congr 1
  funext r
  exact Bool.and_comm _ _

theorem sortByTimestampAsc_perm (rows : List DBRow) :
    (sortByTimestampAsc rows).Perm rows :=
  List.mergeSort_perm rows _

theorem sortByTimestampAsc_sorted (rows : List DBRow) :
    List.Pairwise (fun a b : DBRow => a.timestamp ≤ b.timestamp)
      (sortByTimestampAsc rows) := by
  refine (List.sorted_mergeSort ?_ ?_ rows).imp ?_
  · intro a b c hab hbc
    simp only [decide_eq_true_eq] at *
    omega
  · intro a b
    simp only [Bool.or_eq_true, decide_eq_true_eq]
    omega
  · intro a b h
    exact of_decide_eq_true h

theorem filter_take_drop {α : Type} (P : α → Bool) (l : List α) (k : ℕ)
    (h1 : ∀ r ∈ l.take k, P r = false) (h2 : ∀ r ∈ l.drop k, P r = true) :
    l.filter P = l.drop k := by
  conv_lhs => rw [← List.take_append_drop k l]
  rw [List.filter_append,
    List.filter_eq_nil_iff.mpr (fun a ha h => by rw [h1 a ha] at h; exact Bool.false_ne_true h),
    List.filter_eq_self.mpr h2, List.nil_append]

theorem pruneStep_spec (cap : ℕ) (cur : List DBRow) (acc2 : ℕ) (t : String) (cnt : ℕ)
    (hid : (cur.map fun r => r.id).Nodup)
    (hcnt : cnt = (tickerRows cur t).length) :
    (∀ t2, t2 ≠ t →
      tickerRows (pruneStep cap (cur, acc2) (t, cnt)).1 t2 = tickerRows cur t2) ∧
    (tickerRows (pruneStep cap (cur, acc2) (t, cnt)).1 t).Perm
      ((sortByTimestampAsc (tickerRows cur t)).drop (cnt - cap)) ∧
    (pruneStep cap (cur, acc2) (t, cnt)).1.length + (cnt - cap) = cur.length ∧
    ((pruneStep cap (cur, acc2) (t, cnt)).1.map fun r => r.id).Nodup ∧
    (pruneStep cap (cur, acc2) (t, cnt)).2 = acc2 + (cnt - cap) := by
  have hrows_sub : (tickerRows cur t).Sublist cur := List.filter_sublist cur
  have hrows_ids : ((tickerRows cur t).map fun r => r.id).Nodup :=
    List.Nodup.sublist (hrows_sub.map _) hid
  have hs_perm := sortByTimestampAsc_perm (tickerRows cur t)
  have hs_ids : ((sortByTimestampAsc (tickerRows cur t)).map fun r => r.id).Nodup :=
    (hs_perm.map _).nodup_iff.mpr hrows_ids
  have hs_nodup : (sortByTimestampAsc (tickerRows cur t)).Nodup :=
    List.Nodup.of_map _ hs_ids
  have hs_len : (sortByTimestampAsc (tickerRows cur t)).length = cnt := by
    rw [hs_perm.length_eq, hcnt]
  have hmem_ids : ∀ r ∈ cur,
      (r.id ∈ ((sortByTimestampAsc (tickerRows cur t)).take (cnt - cap)).map
        (fun x => x.id) ↔
       r ∈ (sortByTimestampAsc (tickerRows cur t)).take (cnt - cap)) := by
    intro r hr
    constructor
    · intro hin
      obtain ⟨x, hx, hxid⟩ := List.mem_map.mp hin
      have hx_cur : x ∈ cur :=
        hrows_sub.subset (hs_perm.mem_iff.mp ((List.take_sublist _ _).subset hx))
      have hrx : r = x := List.inj_on_of_nodup_map hid hr hx_cur hxid.symm
      rw [hrx]
      exact hx
    · intro htk
      exact List.mem_map.mpr ⟨r, htk, rfl⟩
  have htake_not : ∀ r ∈ (sortByTimestampAsc (tickerRows cur t)).take (cnt - cap),
      (decide (r.id ∉ ((sortByTimestampAsc (tickerRows cur t)).take (cnt - cap)).map
        fun x => x.id) : Bool) = false := by
    intro r hr
    simp only [decide_eq_false_iff_not, Decidable.not_not]
    exact List.mem_map.mpr ⟨r, hr, rfl⟩
  have hdrop_mem : ∀ r ∈ (sortByTimestampAsc (tickerRows cur t)).drop (cnt - cap),
      (decide (r.id ∉ ((sortByTimestampAsc (tickerRows cur t)).take (cnt - cap)).map
        fun x => x.id) : Bool) = true := by
    intro r hr
    simp only [decide_eq_true_eq]
    intro hin
    have hr_cur : r ∈ cur :=
      hrows_sub.subset (hs_perm.mem_iff.mp ((List.drop_sublist _ _).subset hr))
    have htk := (hmem_ids r hr_cur).mp hin
    have hnd := hs_nodup
    rw [← List.take_append_drop (cnt - cap) (sortByTimestampAsc (tickerRows cur t))] at hnd
    exact (List.nodup_append.mp hnd).2.2 htk hr
  have hfilter_s :
      (sortByTimestampAsc (tickerRows cur t)).filter
        (fun r => decide (r.id ∉ ((sortByTimestampAsc (tickerRows cur t)).take
          (cnt - cap)).map fun x => x.id)) =
      (sortByTimestampAsc (tickerRows cur t)).drop (cnt - cap) :=
    filter_take_drop _ _ _ htake_not hdrop_mem
  refine ⟨?_, ?_, ?_, ?_, rfl⟩
  · intro t2 ht2
    rw [show (pruneStep cap (cur, acc2) (t, cnt)).1 = cur.filter _ from rfl,
      tickerRows_filter]
    apply List.filter_eq_self.mpr
    intro r hr
    have hr_cur : r ∈ cur := (List.filter_sublist cur).subset hr
    have hr_t2 : r.ticker = t2 := of_decide_eq_true (List.mem_filter.mp hr).2
    simp only [decide_eq_true_eq]
    intro hin
    have htk := (hmem_ids r hr_cur).mp hin
    have hr_rows : r ∈ tickerRows cur t :=
      hs_perm.mem_iff.mp ((List.take_sublist _ _).subset htk)
    have hr_t : r.ticker = t := of_decide_eq_true (List.mem_filter.mp hr_rows).2
    exact ht2 (by rw [← hr_t2, hr_t])
  · rw [show (pruneStep cap (cur, acc2) (t, cnt)).1 = cur.filter _ from rfl,
      tickerRows_filter]
    have hpf := (hs_perm.filter (fun r =>
      decide (r.id ∉ ((sortByTimestampAsc (tickerRows cur t)).take
        (cnt - cap)).map fun x => x.id))).symm
    rw [hfilter_s] at hpf
    exact hpf
  · have hsplit := @List.length_eq_length_filter_add DBRow cur
      (fun r => decide (r.id ∉ ((sortByTimestampAsc (tickerRows cur t)).take
        (cnt - cap)).map fun x => x.id))
    have hnodup_cur : cur.Nodup := List.Nodup.of_map _ hid
    have h1 : (cur.filter fun r =>
        !(decide (r.id ∉ ((sortByTimestampAsc (tickerRows cur t)).take
          (cnt - cap)).map fun x => x.id))).Nodup :=
      List.Nodup.sublist (List.filter_sublist cur) hnodup_cur
    have h2 : ((sortByTimestampAsc (tickerRows cur t)).take (cnt - cap)).Nodup :=
      List.Nodup.sublist (List.take_sublist _ _) hs_nodup
    have hpermtk : (cur.filter fun r =>
        !(decide (r.id ∉ ((sortByTimestampAsc (tickerRows cur t)).take
          (cnt - cap)).map fun x => x.id))).Perm
        ((sortByTimestampAsc (tickerRows cur t)).take (cnt - cap)) := by
      apply (List.perm_ext_iff_of_nodup h1 h2).mpr
      intro a
      constructor
      · intro ha
        have hmf := List.mem_filter.mp ha
        have ha_cur : a ∈ cur := hmf.1
        have : a.id ∈ ((sortByTimestampAsc (tickerRows cur t)).take (cnt - cap)).map
            fun x => x.id := by
          have := hmf.2
          simp only [Bool.not_eq_eq_eq_not, Bool.not_true, decide_eq_false_iff_not,
            Decidable.not_not] at this
          exact this
        exact (hmem_ids a ha_cur).mp this
      · intro ha
        refine List.mem_filter.mpr ⟨?_, ?_⟩
        · exact hrows_sub.subset (hs_perm.mem_iff.mp ((List.take_sublist _ _).subset ha))
        · rw [htake_not a ha]
          rfl
    have hlen_tk : ((sortByTimestampAsc (tickerRows cur t)).take (cnt - cap)).length
        = cnt - cap := by
      rw [List.length_take, hs_len]
      omega
    have hptk := hpermtk.length_eq
    rw [hlen_tk] at hptk
    show (cur.filter fun r =>
      decide (r.id ∉ ((sortByTimestampAsc (tickerRows cur t)).take
        (cnt - cap)).map fun x => x.id)).length + (cnt - cap) = cur.length
    omega
  · exact List.Nodup.sublist ((List.filter_sublist cur).map _) hid


theorem tickersToPrune_map_fst (cap : ℕ) (table : List DBRow) :
    (tickersToPrune cap table).map Prod.fst =
      (table.map fun r => r.ticker).dedup.filter fun t =>
        decide (cap < (tickerRows table t).length) := by
  unfold tickersToPrune
  induction (table.map fun r => r.ticker).dedup with
  | nil => rfl
  | cons a l ih =>
    rw [List.filterMap_cons, List.filter_cons]
    by_cases h : cap < (tickerRows table a).length
    · simp only [if_pos h, List.map_cons, ih, decide_eq_true_eq, h, if_true]
    · simp only [if_neg h, ih, decide_eq_true_eq, h, if_false]

theorem tickersToPrune_keys_nodup (cap : ℕ) (table : List DBRow) :
    ((tickersToPrune cap table).map Prod.fst).Nodup := by
  rw [tickersToPrune_map_fst]
  exact List.Nodup.sublist (List.filter_sublist _) (List.nodup_dedup _)

theorem mem_tickersToPrune (cap : ℕ) (table : List DBRow) (tc : String × ℕ) :
    tc ∈ tickersToPrune cap table ↔
      cap < (tickerRows table tc.1).length ∧ tc.2 = (tickerRows table tc.1).length ∧
        tc.1 ∈ table.map fun r => r.ticker := by
  obtain ⟨t, n⟩ := tc
  unfold tickersToPrune
  rw [List.mem_filterMap]
  constructor
  · rintro ⟨a, ha, hfa⟩
    by_cases h : cap < (tickerRows table a).length
    · rw [if_pos h] at hfa
      cases hfa
      exact ⟨h, rfl, List.mem_dedup.mp ha⟩
    · rw [if_neg h] at hfa
      cases hfa
  · rintro ⟨h1, h2, h3⟩
    have h1' : cap < (tickerRows table t).length := h1
    have h2' : n = (tickerRows table t).length := h2
    refine ⟨t, List.mem_dedup.mpr h3, ?_⟩
    rw [if_pos h1', h2']

theorem prune_foldl_spec (cap : ℕ) (origTable : List DBRow)
    (tcs : List (String × ℕ)) :
    ∀ (cur : List DBRow) (acc2 : ℕ),
    (cur.map fun r => r.id).Nodup →
    (tcs.map Prod.fst).Nodup →
    (∀ tc ∈ tcs, tickerRows cur tc.1 = tickerRows origTable tc.1 ∧
      tc.2 = (tickerRows origTable tc.1).length) →
    ((tcs.foldl (pruneStep cap) (cur, acc2)).1.map fun r => r.id).Nodup ∧
    (∀ t2, t2 ∉ tcs.map Prod.fst →
      tickerRows (tcs.foldl (pruneStep cap) (cur, acc2)).1 t2 = tickerRows cur t2) ∧
    (∀ tc ∈ tcs, (tickerRows (tcs.foldl (pruneStep cap) (cur, acc2)).1 tc.1).Perm
      ((sortByTimestampAsc (tickerRows origTable tc.1)).drop (tc.2 - cap))) ∧
    (tcs.foldl (pruneStep cap) (cur, acc2)).1.length +
      (tcs.map fun tc => tc.2 - cap).sum = cur.length ∧
    (tcs.foldl (pruneStep cap) (cur, acc2)).2 =
      acc2 + (tcs.map fun tc => tc.2 - cap).sum := by
  induction tcs with
  | nil =>
    intro cur acc2 hid hkeys hhyp
    exact ⟨hid, fun t2 _ => rfl, fun tc h => absurd h (List.not_mem_nil tc),
      by simp, by simp⟩
  | cons tc tcs ih =>
    intro cur acc2 hid hkeys hhyp
    have hh := hhyp tc (List.mem_cons_self tc tcs)
    have hcnt : tc.2 = (tickerRows cur tc.1).length := by
      rw [hh.1]
      exact hh.2
    have hstep := pruneStep_spec cap cur acc2 tc.1 tc.2 hid hcnt
    rw [show ((tc.1 : String), (tc.2 : ℕ)) = tc from rfl] at hstep
    have hkeys' : (tcs.map Prod.fst).Nodup := (List.nodup_cons.mp (by
      rw [List.map_cons] at hkeys
      exact hkeys)).2
    have hhead : tc.1 ∉ tcs.map Prod.fst := (List.nodup_cons.mp (by
      rw [List.map_cons] at hkeys
      exact hkeys)).1
    have hhyp' : ∀ tc' ∈ tcs,
        tickerRows (pruneStep cap (cur, acc2) tc).1 tc'.1 = tickerRows origTable tc'.1 ∧
        tc'.2 = (tickerRows origTable tc'.1).length := by
      intro tc' htc'
      have hne : tc'.1 ≠ tc.1 := by
        intro he
        exact hhead (he ▸ List.mem_map_of_mem Prod.fst htc')
      exact ⟨by rw [hstep.1 tc'.1 hne, (hhyp tc' (List.mem_cons_of_mem tc htc')).1],
        (hhyp tc' (List.mem_cons_of_mem tc htc')).2⟩
    have hres := ih (pruneStep cap (cur, acc2) tc).1 (pruneStep cap (cur, acc2) tc).2
      hstep.2.2.2.1 hkeys' hhyp'
    rw [show ((pruneStep cap (cur, acc2) tc).1, (pruneStep cap (cur, acc2) tc).2)
      = pruneStep cap (cur, acc2) tc from rfl] at hres
    rw [List.foldl_cons]
    refine ⟨hres.1, ?_, ?_, ?_, ?_⟩
    · intro t2 ht2
      rw [List.map_cons, List.mem_cons] at ht2
      push_neg at ht2
      rw [hres.2.1 t2 ht2.2, hstep.1 t2 ht2.1]
    · intro tc2 htc2
      rcases List.mem_cons.mp htc2 with heq | htail
      · subst heq
        rw [hres.2.1 _ hhead, ← hh.1]
        exact hstep.2.1
      · exact hres.2.2.1 tc2 htail
    · have h1 := hres.2.2.2.1
      have h2 := hstep.2.2.1
      rw [List.map_cons, List.sum_cons]
      omega
    · have h1 := hres.2.2.2.2
      have h2 := hstep.2.2.2.2
      rw [List.map_cons, List.sum_cons]
      omega

/-- C6: assuming distinct row ids (the table's primary key), after
`prune_old_data cap` every ticker retains at most `cap` rows; a ticker that
had `N > cap` rows retains exactly `cap` — a permutation of the most recent
`cap` rows in ascending-timestamp order — and every deleted row is at least
as old as every retained row of its ticker; a ticker with at most `cap` rows
is untouched; and the returned count is exactly the total number of deleted
rows. -/
theorem prune_old_data_spec (cap : ℕ) (table : List DBRow)
    (hid : (table.map fun r => r.id).Nodup) (t : String) :
    ((tickerRows (prune_old_data cap table).1 t).length ≤ cap ∨
      tickerRows (prune_old_data cap table).1 t = tickerRows table t) ∧
    (tickerRows (prune_old_data cap table).1 t).length ≤
      max cap (tickerRows table t).length ∧
    ((tickerRows table t).length ≤ cap →
      tickerRows (prune_old_data cap table).1 t = tickerRows table t) ∧
    (cap < (tickerRows table t).length →
      (tickerRows (prune_old_data cap table).1 t).length = cap ∧
      (tickerRows (prune_old_data cap table).1 t).Perm
        ((sortByTimestampAsc (tickerRows table t)).drop
          ((tickerRows table t).length - cap)) ∧
      (∀ d ∈ tickerRows table t, d ∉ (prune_old_data cap table).1 →
        ∀ r ∈ tickerRows (prune_old_data cap table).1 t,
          d.timestamp ≤ r.timestamp)) ∧
    (prune_old_data cap table).2 + (prune_old_data cap table).1.length
      = table.length := by
  have hfold := prune_foldl_spec cap table (tickersToPrune cap table) table 0 hid
    (tickersToPrune_keys_nodup cap table)
    (fun tc htc => ⟨rfl, ((mem_tickersToPrune cap table tc).mp htc).2.1⟩)
  have huntouched : (tickerRows table t).length ≤ cap →
      tickerRows (prune_old_data cap table).1 t = tickerRows table t := by
    intro hle
    have hnot : t ∉ (tickersToPrune cap table).map Prod.fst := by
      rw [tickersToPrune_map_fst]
      intro hmem
      have := List.mem_filter.mp hmem
      have := of_decide_eq_true this.2
      omega
    exact hfold.2.1 t hnot
  have hpruned : cap < (tickerRows table t).length →
      (tickerRows (prune_old_data cap table).1 t).length = cap ∧
      (tickerRows (prune_old_data cap table).1 t).Perm
        ((sortByTimestampAsc (tickerRows table t)).drop
          ((tickerRows table t).length - cap)) ∧
      (∀ d ∈ tickerRows table t, d ∉ (prune_old_data cap table).1 →
        ∀ r ∈ tickerRows (prune_old_data cap table).1 t,
          d.timestamp ≤ r.timestamp) := by
    intro hlt
    have hne : tickerRows table t ≠ [] := by
      intro hnil
      rw [hnil] at hlt
      simp at hlt
    obtain ⟨r0, hr0⟩ := List.exists_mem_of_ne_nil _ hne
    have hr0t : r0.ticker = t := of_decide_eq_true (List.mem_filter.mp hr0).2
    have htmem : t ∈ table.map fun r => r.ticker :=
      List.mem_map.mpr ⟨r0, (List.filter_sublist table).subset hr0, hr0t⟩
    have hmem : (t, (tickerRows table t).length) ∈ tickersToPrune cap table :=
      (mem_tickersToPrune cap table (t, (tickerRows table t).length)).mpr
        ⟨hlt, rfl, htmem⟩
    have hperm : (tickerRows (prune_old_data cap table).1 t).Perm
        ((sortByTimestampAsc (tickerRows table t)).drop
          ((tickerRows table t).length - cap)) :=
      hfold.2.2.1 (t, (tickerRows table t).length) hmem
    have hs_perm := sortByTimestampAsc_perm (tickerRows table t)
    have hs_len := hs_perm.length_eq
    have hlen : (tickerRows (prune_old_data cap table).1 t).length = cap := by
      rw [hperm.length_eq, List.length_drop, hs_len]
      omega
    refine ⟨hlen, hperm, ?_⟩
    intro d hd hdnot r hr
    have hd_s : d ∈ sortByTimestampAsc (tickerRows table t) := hs_perm.mem_iff.mpr hd
    have hr_drop : r ∈ (sortByTimestampAsc (tickerRows table t)).drop
        ((tickerRows table t).length - cap) := hperm.mem_iff.mp hr
    rw [← List.take_append_drop ((tickerRows table t).length - cap)
      (sortByTimestampAsc (tickerRows table t))] at hd_s
    rcases List.mem_append.mp hd_s with hd_take | hd_drop
    · have hsorted := sortByTimestampAsc_sorted (tickerRows table t)
      rw [← List.take_append_drop ((tickerRows table t).length - cap)
        (sortByTimestampAsc (tickerRows table t))] at hsorted
      exact (List.pairwise_append.mp hsorted).2.2 d hd_take r hr_drop
    · exfalso
      apply hdnot
      have : d ∈ tickerRows (prune_old_data cap table).1 t := hperm.mem_iff.mpr hd_drop
      exact (List.filter_sublist _).subset this
  refine ⟨?_, ?_, huntouched, hpruned, ?_⟩
  · by_cases hlt : cap < (tickerRows table t).length
    · exact Or.inl (le_of_eq (hpruned hlt).1)
    · exact Or.inr (huntouched (by omega))
  · by_cases hlt : cap < (tickerRows table t).length
    · rw [(hpruned hlt).1]
      omega
    · rw [huntouched (by omega)]
      omega
  · have h1 : (prune_old_data cap table).1.length +
        ((tickersToPrune cap table).map fun tc => tc.2 - cap).sum = table.length :=
      hfold.2.2.2.1
    have h2 : (prune_old_data cap table).2 =
        0 + ((tickersToPrune cap table).map fun tc => tc.2 - cap).sum :=
      hfold.2.2.2.2
    omega

/-- The concrete table of the pruning witness: ticker "A" holds two rows,
ticker "B" one. -/
def pruneTable : List DBRow := [⟨1, "A", 10⟩, ⟨2, "A", 5⟩, ⟨3, "B", 0⟩]

/-- Witness for C6: pruning the sample table to one row per ticker deletes
exactly one row. -/
theorem prune_old_data_spec_witness :
    (prune_old_data 1 pruneTable).2 + (prune_old_data 1 pruneTable).1.length
      = pruneTable.length :=
  (prune_old_data_spec 1 pruneTable (by decide) "A").2.2.2.2

end Kalshi
